import Mathlib

/-!
Shallow embedding of fs/xfs/scrub/rtsummary.c (the realtime summary
scrubber).  Pure code is translated to Lean functions; the scrub state
(the in-memory xfile scratch index and the corruption flags of
struct xfs_scrub_metadata) is threaded explicitly.  Machine integers are
modelled as Nat with explicit reduction modulo 2 to the 32 where the C
code can overflow.  External XFS helpers that the file calls but whose
bodies are not part of this repository slice are either modelled from the
spec (marked in their doc comments) or kept abstract as fields of the
Mount configuration record.
-/

namespace RtSummary

/-- XFS_WORDLOG: log2 of the size in bytes of one summary word. -/
def wordlog : Nat := 2

/-- union xfs_suminfo_raw: one 4-byte summary counter, kept as raw bytes so
that both the big-endian rtgroups encoding and the native-endian legacy
encoding can be expressed over the same storage. -/
structure SumWordRaw where
  b0 : Nat
  b1 : Nat
  b2 : Nat
  b3 : Nat
deriving DecidableEq, Repr

/-- The all-zero summary word: xfile buffers start zero-filled. -/
def zeroWord : SumWordRaw := ⟨0, 0, 0, 0⟩

/-- Big-endian decoding of a summary word (b0 is the most significant byte). -/
def beDecode (w : SumWordRaw) : Nat :=
  ((w.b0 * 256 + w.b1) * 256 + w.b2) * 256 + w.b3

/-- Big-endian encoding of the low 32 bits of a natural number. -/
def beEncode (n : Nat) : SumWordRaw :=
  ⟨n / 2 ^ 24 % 256, n / 2 ^ 16 % 256, n / 2 ^ 8 % 256, n % 256⟩

/-- Little-endian decoding of a summary word. -/
def leDecode (w : SumWordRaw) : Nat :=
  ((w.b3 * 256 + w.b2) * 256 + w.b1) * 256 + w.b0

/-- Little-endian encoding of the low 32 bits of a natural number. -/
def leEncode (n : Nat) : SumWordRaw :=
  ⟨n % 256, n / 2 ^ 8 % 256, n / 2 ^ 16 % 256, n / 2 ^ 24 % 256⟩

/-- struct xfs_rtalloc_rec: one free extent reported by the realtime bitmap
iterator, in realtime extent (allocation unit) coordinates. -/
structure RtallocRec where
  ar_startext : Nat
  ar_extcount : Nat
deriving DecidableEq, Repr

/-- Configuration of the filesystem instance under check: the fields of
struct xfs_mount and its superblock that rtsummary.c reads, plus the
external helper functions it calls, kept abstract as function fields where
their bodies are outside this repository slice. -/
structure Mount where
  /-- sb_blocklog: log2 of the filesystem block size in bytes. -/
  blocklog : Nat
  /-- m_blockwsize: summary words per filesystem block. -/
  blockwsize : Nat
  /-- sb_rbmblocks: persisted count of realtime bitmap blocks, the stride of
  the summary offset mapping. -/
  sb_rbmblocks : Nat
  /-- Allocation units covered by one bitmap block (divisor of the
  unit-to-bitmap-block mapping). -/
  unitsPerRbmBlock : Nat
  /-- xfs_has_rtgroups: selects the counter encoding variant. -/
  hasRtgroups : Bool
  /-- Host endianness: true when the native integer layout is little-endian. -/
  littleEndianHost : Bool
  /-- xfs_verify_rtbext mp rtbno rtlen: is the physical range addressable?
  Kept abstract (external helper). -/
  verifyRtbext : Nat → Nat → Bool
  /-- xfs_rtx_to_rtb: convert a realtime extent number to a realtime block
  number.  Kept abstract (external helper). -/
  rtxToRtb : Nat → Nat
  /-- xfs_rtxlen_to_extlen: convert an extent count to a block length.
  Kept abstract (external helper). -/
  rtxlenToExtlen : Nat → Nat
  /-- sb_rblocks: size of the realtime volume in blocks. -/
  sb_rblocks : Nat
  /-- Value of the external helper xfs_blen_to_rtbxlen at sb_rblocks. -/
  computedRextents : Nat
  /-- Value of the external helper xfs_rtbitmap_blockcount. -/
  computedRbmblocks : Nat
  /-- Block-count result of the external helper xfs_rtsummary_blockcount. -/
  computedRsumblocks : Nat
  /-- Level-count out-parameter of xfs_rtsummary_blockcount. -/
  computedRsumlevels : Nat
  /-- sb_rextents: persisted count of realtime extents. -/
  sb_rextents : Nat
  /-- m_rsumlevels: cached summary level count. -/
  m_rsumlevels : Nat
  /-- m_rsumblocks: cached summary block count. -/
  m_rsumblocks : Nat
  /-- Inode number of the realtime bitmap inode (rtg_inodes[XFS_RTGI_BITMAP]). -/
  rbmIno : Nat
  /-- Inode number of the realtime summary inode (rtg_inodes[XFS_RTGI_SUMMARY]). -/
  rsumIno : Nat

/-- XFS_FSB_TO_B: filesystem blocks to bytes. -/
def fsbToB (mp : Mount) (n : Nat) : Nat := n * 2 ^ mp.blocklog

/-- XFS_B_TO_FSB: bytes to filesystem blocks, rounding up. -/
def bToFsb (mp : Mount) (n : Nat) : Nat := (n + 2 ^ mp.blocklog - 1) / 2 ^ mp.blocklog

/-- m_blockmask: the low-bits mask of the filesystem block size. -/
def blockmask (mp : Mount) : Nat := 2 ^ mp.blocklog - 1

/-- Fuel-driven binary logarithm, structurally recursive so that it
evaluates by kernel reduction; agrees with Nat.log2 whenever the fuel is at
least the argument. -/
def log2fuel : Nat → Nat → Nat
  | 0, _ => 0
  | fuel + 1, n => if n ≥ 2 then log2fuel fuel (n / 2) + 1 else 0

/-- Modelled from the spec: xfs_highbit64 is not part of this repository
slice; the spec defines the size order of an extent as the floor of log2 of
its unit count. -/
def xfs_highbit64 (n : Nat) : Nat := log2fuel n n

/-- Modelled from the spec: xfs_rtx_to_rbmblock is not part of this
repository slice; the spec defines the block index of a record as the
bitmap block containing its start unit. -/
def xfs_rtx_to_rbmblock (mp : Mount) (rtx : Nat) : Nat := rtx / mp.unitsPerRbmBlock

/-- Modelled from the spec: xfs_rtsumoffs is not part of this repository
slice; the spec defines the summary word offset of a coordinate as
order times bitmap_block_count plus block_index. -/
def xfs_rtsumoffs (mp : Mount) (lenlog rbmoff : Nat) : Nat :=
  lenlog * mp.sb_rbmblocks + rbmoff

/-- The summary word offset of a free extent record, as computed by
xchk_rtsum_record_free lines 186-188. -/
def recOffs (mp : Mount) (rec : RtallocRec) : Nat :=
  xfs_rtsumoffs mp (xfs_highbit64 rec.ar_extcount) (xfs_rtx_to_rbmblock mp rec.ar_startext)

/-- One recorded corruption report: xchk_ino_set_corrupt,
xchk_ino_xref_set_corrupt, or xchk_fblock_set_corrupt with its target. -/
inductive CorruptEvent where
  | inoCorrupt (ino : Nat)
  | inoXrefCorrupt (ino : Nat)
  | fblockCorrupt (ino : Nat) (off : Nat)
deriving DecidableEq, Repr

/-- The scrub state threaded through the check: the sm_flags corruption
bits, the ordered list of corruption reports, and the xfile scratch index
(word offset to raw summary word). -/
structure ScrubState where
  oflagCorrupt : Bool
  oflagXcorrupt : Bool
  events : List CorruptEvent
  scratch : Nat → SumWordRaw

/-- The state at entry: no corruption flags, scratch buffer zero-filled. -/
def initState : ScrubState :=
  ⟨false, false, [], fun _ => zeroWord⟩

/-- xchk_ino_set_corrupt: set XFS_SCRUB_OFLAG_CORRUPT against an inode. -/
def xchk_ino_set_corrupt (st : ScrubState) (ino : Nat) : ScrubState :=
  { st with oflagCorrupt := true, events := st.events ++ [.inoCorrupt ino] }

/-- xchk_ino_xref_set_corrupt: set XFS_SCRUB_OFLAG_XCORRUPT against an
inode (cross-reference corruption). -/
def xchk_ino_xref_set_corrupt (st : ScrubState) (ino : Nat) : ScrubState :=
  { st with oflagXcorrupt := true, events := st.events ++ [.inoXrefCorrupt ino] }

/-- xchk_fblock_set_corrupt: set XFS_SCRUB_OFLAG_CORRUPT against a data
fork offset of an inode. -/
def xchk_fblock_set_corrupt (st : ScrubState) (ino off : Nat) : ScrubState :=
  { st with oflagCorrupt := true, events := st.events ++ [.fblockCorrupt ino off] }

/-- Error results of the scrubber, kept distinct from corruption verdicts. -/
inductive Err where
  | eCanceled
  | eFSCorrupted
  | eIO
deriving DecidableEq, Repr

/-- xchk_rtsum_inc: bump one summary counter and return its new value.
With rtgroups the word is a big-endian 32-bit integer updated by
be32_add_cpu; otherwise it is a native-endian integer updated by plain
arithmetic, so both wrap modulo 2 to the 32. -/
def xchk_rtsum_inc (mp : Mount) (v : SumWordRaw) : SumWordRaw × Nat :=
  if mp.hasRtgroups then
    let n := (beDecode v + 1) % 2 ^ 32
    (beEncode n, n)
  else
    let dec := if mp.littleEndianHost then leDecode v else beDecode v
    let n := (dec + 1) % 2 ^ 32
    (if mp.littleEndianHost then leEncode n else beEncode n, n)

/-- Native decoding of a word under the host endianness of the mount. -/
def nativeDecode (mp : Mount) (w : SumWordRaw) : Nat :=
  if mp.littleEndianHost then leDecode w else beDecode w

/-- Encoding of a counter value in the on-disk variant selected by the
mount: big-endian with rtgroups, host-native otherwise. -/
def encodeValue (mp : Mount) (n : Nat) : SumWordRaw :=
  if mp.hasRtgroups then beEncode n
  else if mp.littleEndianHost then leEncode n else beEncode n

/-- Decoding of a counter value in the variant selected by the mount. -/
def decodeValue (mp : Mount) (w : SumWordRaw) : Nat :=
  if mp.hasRtgroups then beDecode w
  else if mp.littleEndianHost then leDecode w else beDecode w

/-- xchk_rtsum_record_free: visitor for one free extent record.  The
terminate flag is the value of xchk_should_terminate at this record; the
xfile load and store of the scratch index are in-memory and modelled as
error-free. -/
def xchk_rtsum_record_free (mp : Mount) (terminate : Bool) (st : ScrubState)
    (rec : RtallocRec) : ScrubState × Option Err :=
  if terminate then
    (st, some .eCanceled)
  else
    let rbmoff := xfs_rtx_to_rbmblock mp rec.ar_startext
    let lenlog := xfs_highbit64 rec.ar_extcount
    let offs := xfs_rtsumoffs mp lenlog rbmoff
    let rtbno := mp.rtxToRtb rec.ar_startext
    let rtlen := mp.rtxlenToExtlen rec.ar_extcount
    if mp.verifyRtbext rtbno rtlen = false then
      (xchk_ino_xref_set_corrupt st mp.rbmIno, some .eFSCorrupted)
    else
      let v := st.scratch offs
      let v' := (xchk_rtsum_inc mp v).1
      ({ st with scratch := fun o => if o = offs then v' else st.scratch o }, none)

/-- xfs_rtalloc_query_all: drain the free extent records of the bitmap in
order, calling xchk_rtsum_record_free on each and stopping at the first
error.  The term oracle gives the value of xchk_should_terminate at the
i-th record. -/
def queryAll (mp : Mount) (term : Nat → Bool) :
    ScrubState → Nat → List RtallocRec → ScrubState × Option Err
  | st, _, [] => (st, none)
  | st, i, r :: rs =>
    match xchk_rtsum_record_free mp (term i) st r with
    | (st', none) => queryAll mp term st' (i + 1) rs
    | (st', some e) => (st', some e)

/-- xchk_rtsum_compute: pre-check that the bitmap file size matches the
computed bitmap block count in bytes, then drain the bitmap iterator.  The
Bool of the result records whether the scan ran at all. -/
def xchk_rtsum_compute (mp : Mount) (rbmDiskSize : Nat) (term : Nat → Bool)
    (st : ScrubState) (records : List RtallocRec) :
    ScrubState × Option Err × Bool :=
  if fsbToB mp mp.computedRbmblocks = rbmDiskSize then
    let r := queryAll mp term st 0 records
    (r.1, r.2, true)
  else
    (st, some .eFSCorrupted, false)

/-- One xfs_bmapi_read result: the number of mappings returned and, for the
single mapping, whether it is a written data extent and how many blocks it
covers. -/
structure Mapping where
  nmap : Nat
  written : Bool
  blockcount : Nat
deriving DecidableEq, Repr

/-- The while loop of xchk_rtsum_compare lines 254-274: walk the data fork
of the summary inode from off to endoff checking that every block is backed
by a single written mapping.  The term oracle gives xchk_should_terminate
at the i-th iteration; bmapi gives the xfs_bmapi_read result at an offset
(modelled as error-free).  Fuel bounds the recursion; endoff fuel is enough
whenever every mapping covers at least one block.  The Bool of the result
tells whether the loop ran to completion so that the byte comparison loop
may run. -/
def mapCheckLoop (mp : Mount) (term : Nat → Bool) (bmapi : Nat → Mapping)
    (endoff : Nat) : Nat → Nat → Nat → ScrubState → ScrubState × Option Err × Bool
  | 0, off, _, st =>
    if off < endoff then (st, none, false) else (st, none, true)
  | fuel + 1, off, i, st =>
    if off < endoff then
      if term i then (st, some .eCanceled, false)
      else if st.oflagCorrupt then (st, none, false)
      else
        let m := bmapi off
        if m.nmap ≠ 1 ∨ m.written = false then
          (xchk_fblock_set_corrupt st mp.rsumIno off, none, false)
        else
          mapCheckLoop mp term bmapi endoff fuel (off + m.blockcount) (i + 1) st
    else (st, none, true)

/-- The words of one summary block read from a block-indexed word source. -/
def blockWords (wsize : Nat) (f : Nat → SumWordRaw) (base : Nat) : List SumWordRaw :=
  (List.range wsize).map fun i => f (base + i)

/-- The for loop of xchk_rtsum_compare lines 276-301: for each block of the
summary file, read the ondisk block (ondisk off i is word i of block off),
copy the matching words out of the scratch index, and memcmp them; the
first differing block is reported as corruption of the data fork of the
summary inode and ends the loop.  Buffer reads are modelled as error-free.
The loop advances one block per iteration, so endoff fuel is exact. -/
def compareLoop (mp : Mount) (ondisk : Nat → Nat → SumWordRaw)
    (scratch : Nat → SumWordRaw) (endoff : Nat) :
    Nat → Nat → Nat → ScrubState → ScrubState × Option Err
  | 0, _, _, st => (st, none)
  | fuel + 1, off, sumoff, st =>
    if off < endoff then
      if blockWords mp.blockwsize (ondisk off) 0 ≠
          blockWords mp.blockwsize scratch sumoff then
        (xchk_fblock_set_corrupt st mp.rsumIno off, none)
      else
        compareLoop mp ondisk scratch endoff fuel (off + 1) (sumoff + mp.blockwsize) st
    else (st, none)

/-- xchk_rtsum_compare: check that the data fork mappings of the summary
inode cover [0, endoff) with written extents and none at or beyond EOF,
then compare the ondisk summary against the scratch index block by block.
extBeyondEof is the result of the xfs_iext_lookup_extent probe at endoff:
true when some mapping lies at or crosses end of file. -/
def xchk_rtsum_compare (mp : Mount) (rsumDiskSize : Nat) (extBeyondEof : Bool)
    (term : Nat → Bool) (bmapi : Nat → Mapping) (ondisk : Nat → Nat → SumWordRaw)
    (st : ScrubState) : ScrubState × Option Err :=
  let endoff := bToFsb mp rsumDiskSize
  if extBeyondEof then
    (xchk_fblock_set_corrupt st mp.rsumIno endoff, none)
  else
    let r := mapCheckLoop mp term bmapi endoff endoff 0 0 st
    match r.2.1 with
    | some e => (r.1, some e)
    | none =>
      if r.2.2 then
        compareLoop mp ondisk r.1.scratch endoff endoff 0 0 r.1
      else
        (r.1, none)

/-- The geometry fields of struct xchk_rtsummary filled in by
xchk_setup_rtsummary (zeroed by kvzalloc before that). -/
structure Rts where
  rextents : Nat
  rbmblocks : Nat
  rsumblocks : Nat
  rsumlevels : Nat
deriving DecidableEq, Repr

/-- The geometry part of xchk_setup_rtsummary lines 104-109: when the
realtime volume is non-empty, recompute the extent count, bitmap block
count and summary block and level counts through the external helpers;
otherwise every field keeps its zero from the zeroed allocation. -/
def xchk_setup_rtsummary_geom (mp : Mount) : Rts :=
  if mp.sb_rblocks ≠ 0 then
    ⟨mp.computedRextents, mp.computedRbmblocks,
     mp.computedRsumblocks, mp.computedRsumlevels⟩
  else
    ⟨0, 0, 0, 0⟩

/-- The external inputs of one run of xchk_rtsummary: on-disk sizes of the
two metadata inodes, the free extent records the bitmap iterator will
yield, the cancellation oracles of the two loops, the data fork probe
results for the summary inode, the ondisk summary contents, and the
outcome of the external fork scrubber xchk_metadata_inode_forks. -/
structure TopIn where
  rbmDiskSize : Nat
  rsumDiskSize : Nat
  records : List RtallocRec
  termScan : Nat → Bool
  termCmp : Nat → Bool
  extBeyondEof : Bool
  bmapi : Nat → Mapping
  ondisk : Nat → Nat → SumWordRaw
  forkCorrupt : Bool
  forkErr : Option Err

/-- The observable outcome of xchk_rtsummary: final scrub state, returned
error, and which stages were reached. -/
structure TopOut where
  state : ScrubState
  error : Option Err
  forkRan : Bool
  computeRan : Bool
  compareRan : Bool

/-- xchk_rtsummary: the top level check.  Five short-circuiting geometry
checks, then the external fork scrubber, then the recompute scan (whose
EFSCORRUPTED result is converted into a corruption verdict against the
bitmap inode), then the block comparison. -/
def xchk_rtsummary (mp : Mount) (rts : Rts) (inp : TopIn) (st : ScrubState) : TopOut :=
  if mp.sb_rextents ≠ rts.rextents then
    ⟨xchk_ino_set_corrupt st mp.rbmIno, none, false, false, false⟩
  else if mp.m_rsumlevels ≠ rts.rsumlevels then
    ⟨xchk_ino_set_corrupt st mp.rsumIno, none, false, false, false⟩
  else if mp.m_rsumblocks ≠ rts.rsumblocks then
    ⟨xchk_ino_set_corrupt st mp.rsumIno, none, false, false, false⟩
  else if inp.rsumDiskSize &&& blockmask mp ≠ 0 then
    ⟨xchk_ino_set_corrupt st mp.rsumIno, none, false, false, false⟩
  else if inp.rsumDiskSize < fsbToB mp rts.rsumblocks then
    ⟨xchk_ino_set_corrupt st mp.rsumIno, none, false, false, false⟩
  else
    let st1 := if inp.forkCorrupt then { st with oflagCorrupt := true } else st
    if inp.forkErr ≠ none ∨ st1.oflagCorrupt then
      ⟨st1, inp.forkErr, true, false, false⟩
    else
      let c := xchk_rtsum_compute mp inp.rbmDiskSize inp.termScan st1 inp.records
      match c.2.1 with
      | some .eFSCorrupted =>
        ⟨xchk_ino_set_corrupt c.1 mp.rbmIno, none, true, true, false⟩
      | some e => ⟨c.1, some e, true, true, false⟩
      | none =>
        let r := xchk_rtsum_compare mp inp.rsumDiskSize inp.extBeyondEof
                   inp.termCmp inp.bmapi inp.ondisk c.1
        ⟨r.1, r.2, true, true, true⟩

/-- The number of records of a list whose summary coordinate maps to word
offset o. -/
def countAt (mp : Mount) (records : List RtallocRec) (o : Nat) : Nat :=
  (records.filter (fun r => recOffs mp r = o)).length

/-- A small concrete filesystem configuration used to instantiate the
theorems: 16-byte blocks, four summary words per block, two bitmap blocks,
eight allocation units per bitmap block, rtgroups encoding, every physical
range addressable. -/
def mpW : Mount :=
  { blocklog := 4, blockwsize := 4, sb_rbmblocks := 2, unitsPerRbmBlock := 8,
    hasRtgroups := true, littleEndianHost := true,
    verifyRtbext := fun _ _ => true, rtxToRtb := fun n => n,
    rtxlenToExtlen := fun n => n,
    sb_rblocks := 16, computedRextents := 16, computedRbmblocks := 1,
    computedRsumblocks := 1, computedRsumlevels := 5,
    sb_rextents := 16, m_rsumlevels := 5, m_rsumblocks := 1,
    rbmIno := 101, rsumIno := 102 }

section Lemmas

lemma beDecode_beEncode (n : Nat) : beDecode (beEncode n) = n % 2 ^ 32 := by
  unfold beDecode beEncode
  simp only
  omega

lemma leDecode_leEncode (n : Nat) : leDecode (leEncode n) = n % 2 ^ 32 := by
  unfold leDecode leEncode
  simp only
  omega

lemma beEncode_mod (n : Nat) : beEncode (n % 4294967296) = beEncode n := by
  unfold beEncode
  simp only [SumWordRaw.mk.injEq]
  refine ⟨?_, ?_, ?_, ?_⟩ <;> omega

lemma leEncode_mod (n : Nat) : leEncode (n % 4294967296) = leEncode n := by
  unfold leEncode
  simp only [SumWordRaw.mk.injEq]
  refine ⟨?_, ?_, ?_, ?_⟩ <;> omega

lemma inc_encodeValue (mp : Mount) (n : Nat) :
    xchk_rtsum_inc mp (encodeValue mp n) = (encodeValue mp (n + 1), (n + 1) % 2 ^ 32) := by
  unfold xchk_rtsum_inc encodeValue
  by_cases h : mp.hasRtgroups <;> by_cases h2 : mp.littleEndianHost <;>
    simp [h, h2, beDecode_beEncode, leDecode_leEncode, Nat.mod_add_mod, beEncode_mod, leEncode_mod]

lemma decode_encodeValue (mp : Mount) (n : Nat) :
    decodeValue mp (encodeValue mp n) = n % 2 ^ 32 := by
  unfold decodeValue encodeValue
  by_cases h : mp.hasRtgroups <;> by_cases h2 : mp.littleEndianHost <;>
    simp [h, h2, beDecode_beEncode, leDecode_leEncode]

lemma encodeValue_zero (mp : Mount) : encodeValue mp 0 = zeroWord := by
  unfold encodeValue beEncode leEncode zeroWord
  by_cases h : mp.hasRtgroups <;> by_cases h2 : mp.littleEndianHost <;> simp [h, h2]

lemma log2fuel_eq_log2 : ∀ (fuel n : Nat), n ≤ fuel → log2fuel fuel n = Nat.log2 n := by
  intro fuel
  induction fuel with
  | zero =>
    intro n h
    have : n = 0 := by omega
    subst this
    simp [log2fuel, Nat.log2]
  | succ fuel ih =>
    intro n h
    by_cases h2 : n ≥ 2
    · rw [log2fuel, if_pos h2, ih (n / 2) (by omega)]
      conv_rhs => rw [Nat.log2]
      rw [if_pos h2]
    · rw [log2fuel, if_neg h2]
      conv_rhs => rw [Nat.log2]
      rw [if_neg h2]

lemma xfs_highbit64_eq_log2 (n : Nat) : xfs_highbit64 n = Nat.log2 n :=
  log2fuel_eq_log2 n n (Nat.le_refl n)

lemma countAt_nil (mp : Mount) (o : Nat) : countAt mp [] o = 0 := rfl

lemma countAt_cons (mp : Mount) (r : RtallocRec) (rs : List RtallocRec) (o : Nat) :
    countAt mp (r :: rs) o = (if recOffs mp r = o then 1 else 0) + countAt mp rs o := by
  unfold countAt
  by_cases h : recOffs mp r = o <;> simp [List.filter_cons, h, Nat.add_comm]

lemma record_free_ok (mp : Mount) (st : ScrubState) (rec : RtallocRec)
    (hver : mp.verifyRtbext (mp.rtxToRtb rec.ar_startext) (mp.rtxlenToExtlen rec.ar_extcount) = true) :
    xchk_rtsum_record_free mp false st rec =
      ({ st with scratch := fun o => if o = recOffs mp rec
          then (xchk_rtsum_inc mp (st.scratch (recOffs mp rec))).1 else st.scratch o }, none) := by
  unfold xchk_rtsum_record_free recOffs
  simp [hver]

lemma queryAll_spec (mp : Mount) (term : Nat → Bool) (hterm : ∀ i, term i = false) :
    ∀ (rs : List RtallocRec) (st : ScrubState) (i : Nat) (c : Nat → Nat),
      (∀ r ∈ rs, mp.verifyRtbext (mp.rtxToRtb r.ar_startext)
          (mp.rtxlenToExtlen r.ar_extcount) = true) →
      (∀ o, st.scratch o = encodeValue mp (c o)) →
      (queryAll mp term st i rs).2 = none ∧
      (queryAll mp term st i rs).1.oflagCorrupt = st.oflagCorrupt ∧
      (queryAll mp term st i rs).1.oflagXcorrupt = st.oflagXcorrupt ∧
      (queryAll mp term st i rs).1.events = st.events ∧
      (∀ o, (queryAll mp term st i rs).1.scratch o = encodeValue mp (c o + countAt mp rs o)) := by
  intro rs
  induction rs with
  | nil =>
    intro st i c hver hsc
    refine ⟨rfl, rfl, rfl, rfl, fun o => ?_⟩
    simp [queryAll, countAt_nil, hsc o]
  | cons r rs ih =>
    intro st i c hver hsc
    have hrec := record_free_ok mp st r (hver r (by simp))
    have hq : queryAll mp term st i (r :: rs) =
        queryAll mp term ({ st with scratch := fun o => if o = recOffs mp r
          then (xchk_rtsum_inc mp (st.scratch (recOffs mp r))).1 else st.scratch o })
          (i + 1) rs := by
      rw [queryAll, hterm i, hrec]
    rw [hq]
    have hsc' : ∀ o, (if o = recOffs mp r
        then (xchk_rtsum_inc mp (st.scratch (recOffs mp r))).1 else st.scratch o) =
        encodeValue mp (if o = recOffs mp r then c o + 1 else c o) := by
      intro o
      by_cases h : o = recOffs mp r
      · subst h
        rw [hsc, inc_encodeValue]
        simp
      · simp [h, hsc o]
    have := ih ({ st with scratch := fun o => if o = recOffs mp r
          then (xchk_rtsum_inc mp (st.scratch (recOffs mp r))).1 else st.scratch o })
        (i + 1) (fun o => if o = recOffs mp r then c o + 1 else c o)
        (fun x hx => hver x (by simp [hx])) hsc'
    refine ⟨this.1, this.2.1, this.2.2.1, this.2.2.2.1, fun o => ?_⟩
    rw [this.2.2.2.2 o, countAt_cons]
    by_cases h : recOffs mp r = o
    · simp [h, Nat.add_comm, Nat.add_assoc, Nat.add_left_comm]
    · have h2 : ¬ o = recOffs mp r := fun hh => h hh.symm
      simp [h, h2]

lemma compute_run (mp : Mount) (rbmDiskSize : Nat) (term : Nat → Bool)
    (st : ScrubState) (records : List RtallocRec)
    (hsize : fsbToB mp mp.computedRbmblocks = rbmDiskSize) :
    xchk_rtsum_compute mp rbmDiskSize term st records =
      ((queryAll mp term st 0 records).1, (queryAll mp term st 0 records).2, true) := by
  unfold xchk_rtsum_compute
  rw [if_pos hsize]

end Lemmas

/-- C1: for every finite record set drained by the bitmap iterator with no
out-of-range record, no I/O error and no cancellation, after the recompute
scan each scratch summary word decodes to the exact number of records whose
coordinate maps to that word, and every word no record maps to is still the
zero word, so an empty record set leaves the scratch index all zero.  The
record count bound reflects that a real bitmap cannot yield 2 to the 32
records. -/
theorem C1_rtsum_compute_exact_counts (mp : Mount) (rbmDiskSize : Nat)
    (term : Nat → Bool) (records : List RtallocRec)
    (hterm : ∀ i, term i = false)
    (hver : ∀ r ∈ records, mp.verifyRtbext (mp.rtxToRtb r.ar_startext)
        (mp.rtxlenToExtlen r.ar_extcount) = true)
    (hsize : fsbToB mp mp.computedRbmblocks = rbmDiskSize)
    (hbound : records.length < 2 ^ 32) :
    (xchk_rtsum_compute mp rbmDiskSize term initState records).2.1 = none ∧
    (∀ o, decodeValue mp
        ((xchk_rtsum_compute mp rbmDiskSize term initState records).1.scratch o) =
        countAt mp records o) ∧
    (∀ o, countAt mp records o = 0 →
        (xchk_rtsum_compute mp rbmDiskSize term initState records).1.scratch o = zeroWord) := by
  rw [compute_run mp rbmDiskSize term initState records hsize]
  have h := queryAll_spec mp term hterm records initState 0 (fun _ => 0)
    hver (fun o => (encodeValue_zero mp).symm)
  have hle : ∀ o, countAt mp records o ≤ records.length :=
    fun o => List.length_filter_le _ _
  refine ⟨h.1, fun o => ?_, fun o hz => ?_⟩
  · rw [h.2.2.2.2 o, decode_encodeValue]
    show (0 + countAt mp records o) % 2 ^ 32 = countAt mp records o
    have := hle o
    omega
  · rw [h.2.2.2.2 o, hz]
    exact encodeValue_zero mp

/-- Witness for C1 at a concrete input: two free extents of four units
each, both mapping to word offset 4, which ends holding count two. -/
theorem C1_witness :
    (xchk_rtsum_compute mpW 16 (fun _ => false)
      initState [⟨0, 4⟩, ⟨4, 4⟩]).2.1 = none ∧
    decodeValue mpW ((xchk_rtsum_compute mpW 16 (fun _ => false)
      initState [⟨0, 4⟩, ⟨4, 4⟩]).1.scratch 4) = countAt mpW [⟨0, 4⟩, ⟨4, 4⟩] 4 := by
  have h := C1_rtsum_compute_exact_counts mpW 16 (fun _ => false) [⟨0, 4⟩, ⟨4, 4⟩]
    (fun _ => rfl) (by decide) (by decide) (by decide)
  exact ⟨h.1, h.2.1 4⟩

/-- C2: the summary coordinate of a record is order = floor of log2 of the
unit count (characterized by the two-sided power bound) and block index =
the bitmap block containing the start unit; the word offset
order times bitmap_block_count plus block_index agrees exactly on records
with equal coordinates and differs on records with different coordinates
(given in-range block indices); start_unit 0 with unit_count 4 yields
order 2 and block index 0. -/
theorem C2_coordinate_mapping (mp : Mount) (r1 r2 : RtallocRec)
    (h1 : xfs_rtx_to_rbmblock mp r1.ar_startext < mp.sb_rbmblocks)
    (h2 : xfs_rtx_to_rbmblock mp r2.ar_startext < mp.sb_rbmblocks) :
    (∀ r : RtallocRec, recOffs mp r =
        Nat.log2 r.ar_extcount * mp.sb_rbmblocks + r.ar_startext / mp.unitsPerRbmBlock) ∧
    (∀ n : Nat, n ≠ 0 → 2 ^ xfs_highbit64 n ≤ n ∧ n < 2 ^ (xfs_highbit64 n + 1)) ∧
    (recOffs mp r1 = recOffs mp r2 ↔
      (xfs_highbit64 r1.ar_extcount = xfs_highbit64 r2.ar_extcount ∧
       xfs_rtx_to_rbmblock mp r1.ar_startext = xfs_rtx_to_rbmblock mp r2.ar_startext)) ∧
    (xfs_highbit64 4 = 2 ∧ xfs_rtx_to_rbmblock mp 0 = 0) := by
  have hN : 0 < mp.sb_rbmblocks := Nat.lt_of_le_of_lt (Nat.zero_le _) h1
  refine ⟨fun r => ?_, fun n hn => ?_, ⟨fun heq => ?_, fun heq => ?_⟩, by decide, ?_⟩
  · unfold recOffs xfs_rtsumoffs xfs_rtx_to_rbmblock
    rw [xfs_highbit64_eq_log2]
  · rw [xfs_highbit64_eq_log2]
    exact ⟨Nat.log2_self_le hn, Nat.lt_log2_self⟩
  · unfold recOffs xfs_rtsumoffs at heq
    have hdiv : ∀ a b : Nat, b < mp.sb_rbmblocks →
        (a * mp.sb_rbmblocks + b) / mp.sb_rbmblocks = a := by
      intro a b hb
      rw [Nat.mul_comm, Nat.mul_add_div hN, Nat.div_eq_of_lt hb, Nat.add_zero]
    have hmod : ∀ a b : Nat, b < mp.sb_rbmblocks →
        (a * mp.sb_rbmblocks + b) % mp.sb_rbmblocks = b := by
      intro a b hb
      rw [Nat.add_comm, Nat.add_mul_mod_self_right, Nat.mod_eq_of_lt hb]
    constructor
    · have := congrArg (fun x => x / mp.sb_rbmblocks) heq
      simpa [hdiv _ _ h1, hdiv _ _ h2] using this
    · have := congrArg (fun x => x % mp.sb_rbmblocks) heq
      simpa [hmod _ _ h1, hmod _ _ h2] using this
  · unfold recOffs xfs_rtsumoffs
    rw [heq.1, heq.2]
  · unfold xfs_rtx_to_rbmblock
    exact Nat.zero_div _

/-- Witness for C2 at concrete records: units 0 to 3 against units 9 to 10
on the mpW geometry, plus the scenario with start 0 and count 4. -/
theorem C2_witness :
    recOffs mpW ⟨0, 4⟩ = Nat.log2 4 * 2 + 0 / 8 ∧
    (2 ^ xfs_highbit64 4 ≤ 4 ∧ 4 < 2 ^ (xfs_highbit64 4 + 1)) ∧
    (recOffs mpW ⟨0, 4⟩ = recOffs mpW ⟨9, 2⟩ ↔
      (xfs_highbit64 4 = xfs_highbit64 2 ∧
       xfs_rtx_to_rbmblock mpW 0 = xfs_rtx_to_rbmblock mpW 9)) ∧
    (xfs_highbit64 4 = 2 ∧ xfs_rtx_to_rbmblock mpW 0 = 0) := by
  have h := C2_coordinate_mapping mpW ⟨0, 4⟩ ⟨9, 2⟩ (by decide) (by decide)
  exact ⟨h.1 ⟨0, 4⟩, h.2.1 4 (by decide), h.2.2.1, h.2.2.2⟩

section CompareLemmas

lemma blockWords_congr (w : Nat) (f g : Nat → SumWordRaw) (base base' : Nat)
    (h : ∀ i, i < w → f (base + i) = g (base' + i)) :
    blockWords w f base = blockWords w g base' := by
  unfold blockWords
  refine List.map_congr_left ?_
  intro i hi
  exact h i (List.mem_range.mp hi)

lemma compareLoop_first_mismatch (mp : Mount) (ondisk : Nat → Nat → SumWordRaw)
    (scratch : Nat → SumWordRaw) (endoff k : Nat)
    (hagree : ∀ j, j < k → blockWords mp.blockwsize (ondisk j) 0 =
        blockWords mp.blockwsize scratch (j * mp.blockwsize))
    (hdiff : blockWords mp.blockwsize (ondisk k) 0 ≠
        blockWords mp.blockwsize scratch (k * mp.blockwsize))
    (hk : k < endoff) :
    ∀ (fuel off : Nat) (st : ScrubState), off ≤ k → endoff ≤ off + fuel →
      compareLoop mp ondisk scratch endoff fuel off (off * mp.blockwsize) st =
        (xchk_fblock_set_corrupt st mp.rsumIno k, none) := by
  intro fuel
  induction fuel with
  | zero =>
    intro off st hoff hfuel
    omega
  | succ fuel ih =>
    intro off st hoff hfuel
    rw [compareLoop]
    rw [if_pos (by omega : off < endoff)]
    by_cases he : off = k
    · subst he
      rw [if_pos hdiff]
    · have hlt : off < k := by omega
      rw [if_neg (by simpa using (hagree off hlt))]
      have : off * mp.blockwsize + mp.blockwsize = (off + 1) * mp.blockwsize := by ring
      rw [this]
      exact ih (off + 1) st (by omega) (by omega)

end CompareLemmas

/-- C3: the comparator walks blocks in ascending order and stops at the
first block whose ondisk words differ from the scratch words, marking the
data fork of the summary inode corrupt at that block and returning no
error; it never examines any block past the first mismatch, so any ondisk
summary agreeing up to the mismatching block produces the same outcome. -/
theorem C3_comparator_first_mismatch (mp : Mount) (rsumDiskSize : Nat)
    (term : Nat → Bool) (bmapi : Nat → Mapping)
    (ondisk ondisk' : Nat → Nat → SumWordRaw) (st : ScrubState) (k : Nat)
    (hmap : mapCheckLoop mp term bmapi (bToFsb mp rsumDiskSize)
        (bToFsb mp rsumDiskSize) 0 0 st = (st, none, true))
    (hk : k < bToFsb mp rsumDiskSize)
    (hagree : ∀ j, j < k → blockWords mp.blockwsize (ondisk j) 0 =
        blockWords mp.blockwsize st.scratch (j * mp.blockwsize))
    (hdiff : blockWords mp.blockwsize (ondisk k) 0 ≠
        blockWords mp.blockwsize st.scratch (k * mp.blockwsize))
    (hsame : ∀ j, j ≤ k → ∀ i, ondisk' j i = ondisk j i) :
    xchk_rtsum_compare mp rsumDiskSize false term bmapi ondisk st =
      (xchk_fblock_set_corrupt st mp.rsumIno k, none) ∧
    xchk_rtsum_compare mp rsumDiskSize false term bmapi ondisk' st =
      xchk_rtsum_compare mp rsumDiskSize false term bmapi ondisk st := by
  have hrun : ∀ od : Nat → Nat → SumWordRaw,
      (∀ j, j < k → blockWords mp.blockwsize (od j) 0 =
        blockWords mp.blockwsize st.scratch (j * mp.blockwsize)) →
      blockWords mp.blockwsize (od k) 0 ≠
        blockWords mp.blockwsize st.scratch (k * mp.blockwsize) →
      xchk_rtsum_compare mp rsumDiskSize false term bmapi od st =
        (xchk_fblock_set_corrupt st mp.rsumIno k, none) := by
    intro od hag hdf
    unfold xchk_rtsum_compare
    simp only [Bool.false_eq_true, if_false, hmap]
    have := compareLoop_first_mismatch mp od st.scratch (bToFsb mp rsumDiskSize) k
      hag hdf hk (bToFsb mp rsumDiskSize) 0 st (Nat.zero_le k) (by omega)
    simpa using this
  have hb : ∀ j, j ≤ k → blockWords mp.blockwsize (ondisk' j) 0 =
      blockWords mp.blockwsize (ondisk j) 0 := by
    intro j hj
    exact blockWords_congr _ _ _ _ _ (fun i _ => hsame j hj (0 + i))
  have h1 := hrun ondisk hagree hdiff
  have h2 := hrun ondisk'
    (fun j hj => (hb j (Nat.le_of_lt hj)).trans (hagree j hj))
    (fun hc => hdiff (((hb k (Nat.le_refl k)).symm).trans hc))
  exact ⟨h1, h2.trans h1.symm⟩

/-- A two-block ondisk summary whose only nonzero word is word 0 of
block 1, used to exercise the comparator. -/
def ondiskW : Nat → Nat → SumWordRaw := fun off i =>
  if off = 1 ∧ i = 0 then ⟨0, 0, 0, 1⟩ else zeroWord

/-- Witness for C3: a 32-byte ondisk summary on the mpW geometry matching
the all-zero scratch on block 0 and differing on block 1 is reported
corrupt at block 1 with no error returned. -/
theorem C3_witness :
    xchk_rtsum_compare mpW 32 false (fun _ => false) (fun _ => ⟨1, true, 1⟩)
      ondiskW initState =
      (xchk_fblock_set_corrupt initState mpW.rsumIno 1, none) :=
  (C3_comparator_first_mismatch mpW 32 (fun _ => false) (fun _ => ⟨1, true, 1⟩)
    ondiskW ondiskW initState 1
    (by rfl) (by decide)
    (fun j hj => by
      have hj0 : j = 0 := by omega
      subst hj0
      decide)
    (by decide)
    (fun j hj i => rfl)).1

/-- A benign set of external inputs for the top level check on the mpW
geometry: empty record list, no cancellation, clean fork scrub, all-zero
ondisk summary covered by written single-block mappings. -/
def inpW : TopIn :=
  { rbmDiskSize := 16, rsumDiskSize := 16, records := [],
    termScan := fun _ => false, termCmp := fun _ => false,
    extBeyondEof := false, bmapi := fun _ => ⟨1, true, 1⟩,
    ondisk := fun _ _ => zeroWord, forkCorrupt := false, forkErr := none }

lemma and_mask_eq_mod (n k : Nat) : n &&& (2 ^ k - 1) = n % 2 ^ k := by
  apply Nat.eq_of_testBit_eq
  intro i
  simp [Nat.testBit_and, Nat.testBit_mod_two_pow, Nat.testBit_two_pow_sub_one, Bool.and_comm]

/-- C4: the five geometry checks of the top level run in a fixed
short-circuit order (extent count against the bitmap inode, then level
count, block count, block-size alignment of the summary file length, and
minimum summary file length, each against the summary inode); the first
failing check marks its inode corrupt and ends the check with no error and
with no later stage run.  The alignment check of the code, a bitwise AND
with the block mask, is stated through its arithmetic meaning: length
modulo block size. -/
theorem C4_geometry_short_circuit (mp : Mount) (rts : Rts) (inp : TopIn) (st : ScrubState) :
    (mp.sb_rextents ≠ rts.rextents →
      xchk_rtsummary mp rts inp st =
        ⟨xchk_ino_set_corrupt st mp.rbmIno, none, false, false, false⟩) ∧
    (mp.sb_rextents = rts.rextents → mp.m_rsumlevels ≠ rts.rsumlevels →
      xchk_rtsummary mp rts inp st =
        ⟨xchk_ino_set_corrupt st mp.rsumIno, none, false, false, false⟩) ∧
    (mp.sb_rextents = rts.rextents → mp.m_rsumlevels = rts.rsumlevels →
      mp.m_rsumblocks ≠ rts.rsumblocks →
      xchk_rtsummary mp rts inp st =
        ⟨xchk_ino_set_corrupt st mp.rsumIno, none, false, false, false⟩) ∧
    (mp.sb_rextents = rts.rextents → mp.m_rsumlevels = rts.rsumlevels →
      mp.m_rsumblocks = rts.rsumblocks →
      inp.rsumDiskSize % 2 ^ mp.blocklog ≠ 0 →
      xchk_rtsummary mp rts inp st =
        ⟨xchk_ino_set_corrupt st mp.rsumIno, none, false, false, false⟩) ∧
    (mp.sb_rextents = rts.rextents → mp.m_rsumlevels = rts.rsumlevels →
      mp.m_rsumblocks = rts.rsumblocks →
      inp.rsumDiskSize % 2 ^ mp.blocklog = 0 →
      inp.rsumDiskSize < fsbToB mp rts.rsumblocks →
      xchk_rtsummary mp rts inp st =
        ⟨xchk_ino_set_corrupt st mp.rsumIno, none, false, false, false⟩) := by
  refine ⟨fun h1 => ?_, fun h1 h2 => ?_, fun h1 h2 h3 => ?_,
    fun h1 h2 h3 h4 => ?_, fun h1 h2 h3 h4 h5 => ?_⟩
  · simp [xchk_rtsummary, h1]
  · simp [xchk_rtsummary, h1, h2]
  · simp [xchk_rtsummary, h1, h2, h3]
  · simp [xchk_rtsummary, h1, h2, h3, blockmask, and_mask_eq_mod, h4]
  · simp [xchk_rtsummary, h1, h2, h3, blockmask, and_mask_eq_mod, h4, h5]

/-- Witness for C4: on the mpW geometry with a zeroed rts record the first
check (persisted extent count 16 against recomputed 0) fails, the bitmap
inode is marked corrupt, no error is returned and no later stage runs. -/
theorem C4_witness :
    xchk_rtsummary mpW ⟨0, 0, 0, 0⟩ inpW initState =
      ⟨xchk_ino_set_corrupt initState mpW.rbmIno, none, false, false, false⟩ :=
  (C4_geometry_short_circuit mpW ⟨0, 0, 0, 0⟩ inpW initState).1 (by decide)

/-- A mount identical to mpW except that every physical range fails the
address check, driving the out-of-range path. -/
def mpBad : Mount := { mpW with verifyRtbext := fun _ _ => false }

/-- C5: evaluation of the code at the failing input.  On mpBad, whose one
free extent record fails the address check, the visitor marks the bitmap
inode cross-reference corrupt (inoXrefCorrupt) and aborts with
EFSCORRUPTED; the top level then appends a plain corruption event
(inoCorrupt) against the bitmap inode and returns no error with the
comparison stage never run.  The second event being a plain corruption
record rather than a cross-reference one is exactly where the code, which
calls xchk_ino_set_corrupt at line 364, diverges from the claim and from
its own comment calling this an xref error. -/
theorem C5_code_divergence :
    xchk_rtsum_record_free mpBad false initState ⟨0, 4⟩ =
      (xchk_ino_xref_set_corrupt initState mpBad.rbmIno, some .eFSCorrupted) ∧
    (xchk_rtsummary mpBad ⟨16, 1, 1, 5⟩
        { inpW with records := [⟨0, 4⟩] } initState).state.events =
      [.inoXrefCorrupt mpBad.rbmIno, .inoCorrupt mpBad.rbmIno] ∧
    (xchk_rtsummary mpBad ⟨16, 1, 1, 5⟩
        { inpW with records := [⟨0, 4⟩] } initState).error = none ∧
    (xchk_rtsummary mpBad ⟨16, 1, 1, 5⟩
        { inpW with records := [⟨0, 4⟩] } initState).compareRan = false :=
  ⟨rfl, rfl, rfl, rfl⟩

/-- C6: before any byte comparison, a mapping found at or beyond end of
file marks the data fork of the summary inode corrupt at the end offset
and the comparator returns at once; a reached block whose mapping is not a
single written extent is marked corrupt at that offset and ends the
mapping walk; and whenever the mapping walk stops without error the
comparator returns without running the byte comparison loop, its outcome
the same for every ondisk summary content. -/
theorem C6_mapping_precheck (mp : Mount) (rsumDiskSize : Nat)
    (term : Nat → Bool) (bmapi : Nat → Mapping)
    (ondisk ondisk' : Nat → Nat → SumWordRaw) (st st' : ScrubState)
    (fuel off i : Nat)
    (hflag : st.oflagCorrupt = false) :
    (xchk_rtsum_compare mp rsumDiskSize true term bmapi ondisk st =
      (xchk_fblock_set_corrupt st mp.rsumIno (bToFsb mp rsumDiskSize), none)) ∧
    (term i = false → off < bToFsb mp rsumDiskSize →
      (bmapi off).nmap ≠ 1 ∨ (bmapi off).written = false →
      mapCheckLoop mp term bmapi (bToFsb mp rsumDiskSize) (fuel + 1) off i st =
        (xchk_fblock_set_corrupt st mp.rsumIno off, none, false)) ∧
    (mapCheckLoop mp term bmapi (bToFsb mp rsumDiskSize)
        (bToFsb mp rsumDiskSize) 0 0 st = (st', none, false) →
      xchk_rtsum_compare mp rsumDiskSize false term bmapi ondisk st = (st', none) ∧
      xchk_rtsum_compare mp rsumDiskSize false term bmapi ondisk' st = (st', none)) := by
  refine ⟨?_, fun ht hoff hbad => ?_, fun hloop => ?_⟩
  · unfold xchk_rtsum_compare
    simp
  · rw [mapCheckLoop, if_pos hoff, ht, if_neg (by simp), if_neg (by simp [hflag]),
      if_pos hbad]
  · constructor <;>
    · unfold xchk_rtsum_compare
      simp only [Bool.false_eq_true, if_false, hloop]

/-- Witness for C6 on the mpW geometry: a mapping probe beyond the 2-block
end of file reports corruption at block 2, and an unwritten mapping at
block 0 stops the walk there; with that mapping the comparator returns the
corrupt-at-0 state for any ondisk contents. -/
theorem C6_witness :
    (xchk_rtsum_compare mpW 32 true (fun _ => false) (fun _ => ⟨1, false, 1⟩)
      ondiskW initState =
      (xchk_fblock_set_corrupt initState mpW.rsumIno (bToFsb mpW 32), none)) ∧
    (mapCheckLoop mpW (fun _ => false) (fun _ => ⟨1, false, 1⟩) (bToFsb mpW 32)
        (1 + 1) 0 0 initState =
      (xchk_fblock_set_corrupt initState mpW.rsumIno 0, none, false)) ∧
    (xchk_rtsum_compare mpW 32 false (fun _ => false) (fun _ => ⟨1, false, 1⟩)
        ondiskW initState =
      (xchk_fblock_set_corrupt initState mpW.rsumIno 0, none)) := by
  have h := C6_mapping_precheck mpW 32 (fun _ => false) (fun _ => ⟨1, false, 1⟩)
    ondiskW (fun _ _ => zeroWord) initState
    (xchk_fblock_set_corrupt initState mpW.rsumIno 0) 1 0 0 rfl
  exact ⟨h.1, h.2.1 rfl (by decide) (by decide), (h.2.2 (by rfl)).1⟩

/-- C7: with rtgroups the summary word is a big-endian 32-bit counter and
the increment adds one to its big-endian value independently of host
endianness; in the legacy variant the word is a native-endian integer
bumped by plain arithmetic modulo 2 to the 32 with no rollover guard, so a
word at the maximum value wraps to zero. -/
theorem C7_counter_encoding (mp : Mount) (v : SumWordRaw) (b : Bool) :
    (mp.hasRtgroups = true →
      beDecode ((xchk_rtsum_inc mp v).1) = (beDecode v + 1) % 2 ^ 32 ∧
      xchk_rtsum_inc { mp with littleEndianHost := b } v = xchk_rtsum_inc mp v) ∧
    (mp.hasRtgroups = false →
      nativeDecode mp ((xchk_rtsum_inc mp v).1) = (nativeDecode mp v + 1) % 2 ^ 32 ∧
      (nativeDecode mp v = 2 ^ 32 - 1 →
        nativeDecode mp ((xchk_rtsum_inc mp v).1) = 0)) := by
  constructor
  · intro hg
    unfold xchk_rtsum_inc
    refine ⟨?_, ?_⟩
    · simp [hg, beDecode_beEncode]
    · simp [hg]
  · intro hg
    have hmain : nativeDecode mp ((xchk_rtsum_inc mp v).1) =
        (nativeDecode mp v + 1) % 2 ^ 32 := by
      unfold xchk_rtsum_inc nativeDecode
      by_cases h2 : mp.littleEndianHost <;>
        simp [hg, h2, beDecode_beEncode, leDecode_leEncode]
    refine ⟨hmain, fun hmax => ?_⟩
    rw [hmain, hmax]
    decide

/-- The legacy-encoding variant of the mpW configuration. -/
def mpLegacy : Mount := { mpW with hasRtgroups := false }

/-- The summary word with every byte at its maximum. -/
def maxWord : SumWordRaw := ⟨255, 255, 255, 255⟩

/-- Witness for C7: incrementing the zero word under the rtgroups variant
gives big-endian value one; incrementing the all-ones legacy word wraps
the native value to zero. -/
theorem C7_witness :
    beDecode ((xchk_rtsum_inc mpW zeroWord).1) = (beDecode zeroWord + 1) % 2 ^ 32 ∧
    nativeDecode mpLegacy ((xchk_rtsum_inc mpLegacy maxWord).1) = 0 := by
  have h1 := (C7_counter_encoding mpW zeroWord true).1 rfl
  have h2 := (C7_counter_encoding mpLegacy maxWord true).2 rfl
  exact ⟨h1.1, h2.2 (by decide)⟩

/-- C8: when the on-disk bitmap size differs from the computed bitmap
block count in bytes, the compute stage returns the corruption error with
the state untouched and the scan never run; when they agree the bitmap
scan runs. -/
theorem C8_bitmap_size_precheck (mp : Mount) (rbmDiskSize : Nat)
    (term : Nat → Bool) (st : ScrubState) (records : List RtallocRec) :
    (fsbToB mp mp.computedRbmblocks ≠ rbmDiskSize →
      xchk_rtsum_compute mp rbmDiskSize term st records =
        (st, some .eFSCorrupted, false)) ∧
    (fsbToB mp mp.computedRbmblocks = rbmDiskSize →
      xchk_rtsum_compute mp rbmDiskSize term st records =
        ((queryAll mp term st 0 records).1,
         (queryAll mp term st 0 records).2, true)) := by
  constructor
  · intro h
    unfold xchk_rtsum_compute
    rw [if_neg h]
  · exact compute_run mp rbmDiskSize term st records

/-- Witness for C8: on the mpW geometry a 17-byte bitmap differs from the
computed 16 bytes and the scan is skipped with the state untouched; with
the matching 16 bytes the scan runs. -/
theorem C8_witness :
    xchk_rtsum_compute mpW 17 (fun _ => false) initState [⟨0, 4⟩] =
      (initState, some .eFSCorrupted, false) ∧
    xchk_rtsum_compute mpW 16 (fun _ => false) initState [⟨0, 4⟩] =
      ((queryAll mpW (fun _ => false) initState 0 [⟨0, 4⟩]).1,
       (queryAll mpW (fun _ => false) initState 0 [⟨0, 4⟩]).2, true) := by
  have h := C8_bitmap_size_precheck mpW 17 (fun _ => false) initState [⟨0, 4⟩]
  have h2 := C8_bitmap_size_precheck mpW 16 (fun _ => false) initState [⟨0, 4⟩]
  exact ⟨h.1 (by decide), h2.2 (by decide)⟩

/-- C9: both cancellation checkpoints, the one at the head of the free
extent visitor and the one at each iteration of the mapping walk, return
the canceled error with the scrub state completely unchanged, so no
corruption flag is ever set on account of cancellation. -/
theorem C9_cancellation (mp : Mount) (st : ScrubState) (rec : RtallocRec)
    (term : Nat → Bool) (bmapi : Nat → Mapping) (endoff fuel off i : Nat) :
    xchk_rtsum_record_free mp true st rec = (st, some .eCanceled) ∧
    (term i = true → off < endoff →
      mapCheckLoop mp term bmapi endoff (fuel + 1) off i st =
        (st, some .eCanceled, false)) := by
  constructor
  · rfl
  · intro ht hoff
    rw [mapCheckLoop]
    simp [hoff, ht]

/-- Witness for C9: a raised cancellation signal stops the scan at the
first record and the mapping walk at block 0 of the mpW geometry, leaving
the initial state intact. -/
theorem C9_witness :
    xchk_rtsum_record_free mpW true initState ⟨0, 4⟩ =
      (initState, some .eCanceled) ∧
    mapCheckLoop mpW (fun _ => true) (fun _ => ⟨1, true, 1⟩) 2 (1 + 1) 0 0 initState =
      (initState, some .eCanceled, false) := by
  have h := C9_cancellation mpW initState ⟨0, 4⟩ (fun _ => true)
    (fun _ => ⟨1, true, 1⟩) 2 1 0 0
  exact ⟨h.1, h.2 rfl (by decide)⟩

/-- C10: with a zero-size realtime volume the setup skips the geometry
recomputation and every recomputed field keeps its zero from the zeroed
allocation, so the three recomputed-value geometry checks of the top level
pass exactly when the persisted extent count, summary level count and
summary block count are all zero, and any nonzero persisted value is
flagged as corruption of its inode (the bitmap inode for the extent count,
the summary inode for the other two) with no error returned. -/
theorem C10_zero_volume (mp : Mount) (inp : TopIn) (st : ScrubState)
    (hz : mp.sb_rblocks = 0) :
    xchk_setup_rtsummary_geom mp = ⟨0, 0, 0, 0⟩ ∧
    ((mp.sb_rextents = (xchk_setup_rtsummary_geom mp).rextents ∧
      mp.m_rsumlevels = (xchk_setup_rtsummary_geom mp).rsumlevels ∧
      mp.m_rsumblocks = (xchk_setup_rtsummary_geom mp).rsumblocks) ↔
      (mp.sb_rextents = 0 ∧ mp.m_rsumlevels = 0 ∧ mp.m_rsumblocks = 0)) ∧
    (mp.sb_rextents ≠ 0 →
      xchk_rtsummary mp (xchk_setup_rtsummary_geom mp) inp st =
        ⟨xchk_ino_set_corrupt st mp.rbmIno, none, false, false, false⟩) ∧
    (mp.sb_rextents = 0 → mp.m_rsumlevels ≠ 0 →
      xchk_rtsummary mp (xchk_setup_rtsummary_geom mp) inp st =
        ⟨xchk_ino_set_corrupt st mp.rsumIno, none, false, false, false⟩) ∧
    (mp.sb_rextents = 0 → mp.m_rsumlevels = 0 → mp.m_rsumblocks ≠ 0 →
      xchk_rtsummary mp (xchk_setup_rtsummary_geom mp) inp st =
        ⟨xchk_ino_set_corrupt st mp.rsumIno, none, false, false, false⟩) := by
  have hsetup : xchk_setup_rtsummary_geom mp = ⟨0, 0, 0, 0⟩ := by
    unfold xchk_setup_rtsummary_geom
    simp [hz]
  rw [hsetup]
  refine ⟨rfl, by simp, fun h1 => ?_, fun h1 h2 => ?_, fun h1 h2 h3 => ?_⟩
  · simp [xchk_rtsummary, h1]
  · simp [xchk_rtsummary, h1, h2]
  · simp [xchk_rtsummary, h1, h2, h3]

/-- The mpW configuration with an empty realtime volume but stale nonzero
persisted geometry. -/
def mpZ : Mount := { mpW with sb_rblocks := 0 }

/-- Witness for C10: on a zero-size volume the setup leaves all geometry
fields zero and the stale persisted extent count 16 is flagged as
corruption of the bitmap inode with no error. -/
theorem C10_witness :
    xchk_setup_rtsummary_geom mpZ = ⟨0, 0, 0, 0⟩ ∧
    xchk_rtsummary mpZ (xchk_setup_rtsummary_geom mpZ) inpW initState =
      ⟨xchk_ino_set_corrupt initState mpZ.rbmIno, none, false, false, false⟩ := by
  have h := C10_zero_volume mpZ inpW initState rfl
  exact ⟨h.1, h.2.2.1 (by decide)⟩

end RtSummary
